import Mathlib

/-!
Verification development for the tile-area and transformation/iteration engine
of an OpenTTD branch (files tilearea.cpp, clipboard.cpp, clipboard_func.h,
tile_map.h).  Machine integers are modelled as `Nat`/`Int`; wherever a C++
unsigned computation can actually wrap in the scenarios under study, the wrap
is made explicit with `% 4294967296` (uint32) or `% 18446744073709551616`
(size_t).  Fallible computations return `Option`.
-/

set_option autoImplicit false

/-! ### Coordinate primitives (map/grid collaborator)

The tile-index primitives live in map_func.h, which is not part of the
source under study; they are modelled from the spec, section 6: a tile index
is a linear coordinate, decomposed as x = index mod sizeX, y = index div
sizeX, composed as index = y * sizeX + x; a valid position is one on the
grid, i.e. index < sizeX * sizeY. -/

/-- Dimensions of one map instance (the spec splits maps from tiles; a
generic tile index carries the map it belongs to, modelled here by passing
the `MapDims` alongside the raw index). -/
structure MapDims where
  sizeX : Nat
  sizeY : Nat
deriving DecidableEq, Repr

/-- Modelled from the spec: map bounds query, total number of tiles. -/
def MapSize (m : MapDims) : Nat := m.sizeX * m.sizeY

/-- Modelled from the spec: x-coordinate of a linear tile index. -/
def TileX (m : MapDims) (t : Nat) : Nat := t % m.sizeX

/-- Modelled from the spec: y-coordinate of a linear tile index. -/
def TileY (m : MapDims) (t : Nat) : Nat := t / m.sizeX

/-- Modelled from the spec: compose a linear tile index from coordinates. -/
def TileXY (m : MapDims) (x y : Nat) : Nat := y * m.sizeX + x

/-- The out-of-map sentinel index, 0xFFFFFFFF in the source. -/
def INVALID_TILE_INDEX : Nat := 4294967295

/-- Modelled from the spec: the valid-position predicate for a generic tile
index, true when the index addresses a position on the map grid. -/
def IsValidTileIndex (m : MapDims) (t : Nat) : Bool := decide (t < MapSize m)

/-- Modelled from the spec: linear-index delta of moving one tile in x and
one tile in y (TileDiffXY of map_func.h: y * sizeX + x, here over `Int`
because iterator deltas may be negative). -/
def TileDiffXY (x y : Int) (m : MapDims) : Int := y * (m.sizeX : Int) + x

/-- Reduction of a `Nat` to the uint32 range, used exactly where the C++
unsigned arithmetic of the source can wrap. -/
def u32 (n : Nat) : Nat := n % 4294967296

/-- Modelled from the spec: IsInsideBS of bitmath_func.hpp, membership of
`x` in the half-open interval starting at `base` of length `size`. -/
def IsInsideBS (x base size : Nat) : Bool := decide (base ≤ x ∧ x < base + size)

/-! ### OrthogonalTileArea (tilearea.cpp lines 22-165)

The struct itself (tilearea_type.h) is not in the sources under study; its
fields are modelled from the spec, section 3: origin tile, width, height. -/

structure OrthogonalTileArea where
  tile : Nat
  w : Nat
  h : Nat
deriving DecidableEq, Repr

/-- OrthogonalTileAreaT constructor from two corner tiles (tilearea.cpp
lines 22-40): swap the x and the y coordinates independently so the stored
origin is the minimum corner, extents are one past the difference. -/
def OrthogonalTileArea.construct (m : MapDims) (t1 t2 : Nat) : OrthogonalTileArea :=
  let sx0 := TileX m t1
  let sy0 := TileY m t1
  let ex0 := TileX m t2
  let ey0 := TileY m t2
  let sx := if sx0 > ex0 then ex0 else sx0
  let ex := if sx0 > ex0 then sx0 else ex0
  let sy := if sy0 > ey0 then ey0 else sy0
  let ey := if sy0 > ey0 then sy0 else ey0
  ⟨TileXY m sx sy, ex - sx + 1, ey - sy + 1⟩

/-- OrthogonalTileAreaT::Add (tilearea.cpp lines 46-72).  The emptiness test
of the source is IsValidTileIndex on the stored origin tile, and the corner
computations sx + w - 1 are C++ uint32 arithmetic: both are kept exactly,
with the uint32 subtraction of 1 written as addition of 4294967295 modulo
2^32 (`u32`).  When the area is 0 by 0 at a valid origin these really do
wrap, which is observable in the result. -/
def OrthogonalTileArea.add (m : MapDims) (ta : OrthogonalTileArea) (to_add : Nat) : OrthogonalTileArea :=
  if IsValidTileIndex m ta.tile then
    let sx := TileX m ta.tile
    let sy := TileY m ta.tile
    let ex := u32 (sx + ta.w + 4294967295)
    let ey := u32 (sy + ta.h + 4294967295)
    let ax := TileX m to_add
    let ay := TileY m to_add
    let sx2 := min ax sx
    let sy2 := min ay sy
    let ex2 := max ax ex
    let ey2 := max ay ey
    ⟨TileXY m sx2 sy2, u32 (ex2 + 1 - sx2), u32 (ey2 + 1 - sy2)⟩
  else
    ⟨to_add, 1, 1⟩

/-- OrthogonalTileAreaT::Intersects (tilearea.cpp lines 79-103).  The corner
sums left + w - 1 are written in exact `Nat` arithmetic: under the asserted
preconditions of the source (w and h nonzero, fields in machine range) the
uint32 computation never wraps. -/
def OrthogonalTileArea.intersects (m : MapDims) (ta1 ta2 : OrthogonalTileArea) : Bool :=
  if ta2.w = 0 ∨ ta1.w = 0 then false else
  let left1 := TileX m ta1.tile
  let top1 := TileY m ta1.tile
  let right1 := left1 + ta1.w - 1
  let bottom1 := top1 + ta1.h - 1
  let left2 := TileX m ta2.tile
  let top2 := TileY m ta2.tile
  let right2 := left2 + ta2.w - 1
  let bottom2 := top2 + ta2.h - 1
  decide (¬ (left2 > right1 ∨ right2 < left1 ∨ top2 > bottom1 ∨ bottom2 < top1))

/-- OrthogonalTileAreaT::Contains for another area (tilearea.cpp lines
110-133), same conventions as `intersects`. -/
def OrthogonalTileArea.containsArea (m : MapDims) (ta1 ta2 : OrthogonalTileArea) : Bool :=
  if ta2.w = 0 ∨ ta1.w = 0 then false else
  let left1 := TileX m ta1.tile
  let top1 := TileY m ta1.tile
  let right1 := left1 + ta1.w - 1
  let bottom1 := top1 + ta1.h - 1
  let left2 := TileX m ta2.tile
  let top2 := TileY m ta2.tile
  let right2 := left2 + ta2.w - 1
  let bottom2 := top2 + ta2.h - 1
  decide (left2 ≥ left1 ∧ right2 ≤ right1 ∧ top2 ≥ top1 ∧ bottom2 ≤ bottom1)

/-- OrthogonalTileAreaT::Contains for a single tile (tilearea.cpp lines
140-154). -/
def OrthogonalTileArea.containsTile (m : MapDims) (ta : OrthogonalTileArea) (t : Nat) : Bool :=
  if ta.w = 0 then false else
  IsInsideBS (TileX m t) (TileX m ta.tile) ta.w && IsInsideBS (TileY m t) (TileY m ta.tile) ta.h

/-! ### DiagonalTileArea (tilearea.cpp lines 222-284) -/

structure DiagonalTileArea where
  tile : Nat
  a : Int
  b : Int
deriving DecidableEq, Repr

/-- DiagonalTileAreaT constructor from two corner tiles (tilearea.cpp lines
222-250): rotated-axis differences, each then pushed one further away from
zero (incremented when strictly positive, decremented otherwise) for
one-past-end semantics. -/
def DiagonalTileArea.construct (m : MapDims) (tstart tend : Nat) : DiagonalTileArea :=
  let a0 : Int := (TileY m tend : Int) + (TileX m tend : Int) - (TileY m tstart : Int) - (TileX m tstart : Int)
  let b0 : Int := (TileY m tend : Int) - (TileX m tend : Int) - (TileY m tstart : Int) + (TileX m tstart : Int)
  { tile := tstart
    a := if a0 > 0 then a0 + 1 else a0 - 1
    b := if b0 > 0 then b0 + 1 else b0 - 1 }

/-- DiagonalTileAreaT::Contains (tilearea.cpp lines 257-284): rotated sums
of the tile and of the origin, half-open ranges from the stored extents,
endpoint swap adding 1 on both sides when start exceeds end. -/
def DiagonalTileArea.contains (m : MapDims) (ta : DiagonalTileArea) (t : Nat) : Bool :=
  let a : Int := (TileY m t : Int) + (TileX m t : Int)
  let b : Int := (TileY m t : Int) - (TileX m t : Int)
  let start_a : Int := (TileY m ta.tile : Int) + (TileX m ta.tile : Int)
  let start_b : Int := (TileY m ta.tile : Int) - (TileX m ta.tile : Int)
  let end_a : Int := start_a + ta.a
  let end_b : Int := start_b + ta.b
  let sa := if start_a > end_a then end_a + 1 else start_a
  let ea := if start_a > end_a then start_a + 1 else end_a
  let sb := if start_b > end_b then end_b + 1 else start_b
  let eb := if start_b > end_b then start_b + 1 else end_b
  decide (a ≥ sa ∧ a < ea ∧ b ≥ sb ∧ b < eb)

/-! ### Diagonal tile iterator controller (tilearea.cpp lines 291-338)

The controller state is the struct of tilearea_type.h, modelled from the
spec, section 3: current and terminal rotated coordinates plus the origin in
normal coordinates.  `stepOnce` is the body of the border-skip do-while loop
of Advance without the loop itself; `advance` is the full Advance call,
driven by an explicit fuel so that it is total: a `none` result means the
fuel ran out before the source loop would have exited (the theorems below
show that for states reachable from initialization a computable amount of
fuel always suffices, which is exactly the termination of the source loop).
-/

structure DiagonalTileIteratorController where
  base_x : Nat
  base_y : Nat
  a_cur : Int
  b_cur : Int
  a_max : Int
  b_max : Int
deriving DecidableEq, Repr

/-- Modelled from the spec: initialization of the diagonal controller over a
diagonal area (tilearea_type.h, not among the sources): iteration starts at
the origin of the area, so both rotated cursors are 0, the terminal rotated
coordinates are the stored extents and the base is the origin in normal
coordinates. -/
def DiagonalTileIteratorController.init (m : MapDims) (ta : DiagonalTileArea) : DiagonalTileIteratorController :=
  { base_x := TileX m ta.tile
    base_y := TileY m ta.tile
    a_cur := 0
    b_cur := 0
    a_max := ta.a
    b_max := ta.b }

/-- One execution of the rotated-coordinate update at the top of the
do-while loop of DiagonalTileIteratorController::Advance (tilearea.cpp lines
297-328): the degenerate strip case for a_max equal to 1 or -1 jumps b_cur
by two clamped at b_max, otherwise a_cur advances by two towards a_max and
on reaching it starts a new line with a parity-dependent reset. -/
def DiagonalTileIteratorController.stepOnce (s : DiagonalTileIteratorController) : DiagonalTileIteratorController :=
  if s.a_max = 1 ∨ s.a_max = -1 then
    { s with
      a_cur := 0
      b_cur := if 0 < s.b_max then min (s.b_cur + 2) s.b_max else max (s.b_cur - 2) s.b_max }
  else
    let a2 : Int := if 0 < s.a_max then s.a_cur + 2 else s.a_cur - 2
    let new_line : Bool := if 0 < s.a_max then decide (s.a_max ≤ a2) else decide (a2 ≤ s.a_max)
    if new_line then
      { s with
        a_cur := if a2.natAbs % 2 = 1 then 0 else if 0 < s.a_max then 1 else -1
        b_cur := if 0 < s.b_max then s.b_cur + 1 else s.b_cur - 1 }
    else
      { s with a_cur := a2 }

/-- Conversion of the rotated cursor back to a tile index (tilearea.cpp
lines 331-334): x and y are computed in C++ uint32 arithmetic from signed
halves (truncating division, hence `Int.tdiv`), and an off-map coordinate
yields INVALID_TILE_INDEX. -/
def DiagonalTileIteratorController.tileAt (s : DiagonalTileIteratorController) (m : MapDims) : Nat :=
  let x : Nat := (((s.base_x : Int) + (s.a_cur - s.b_cur).tdiv 2) % 4294967296).toNat
  let y : Nat := (((s.base_y : Int) + (s.b_cur + s.a_cur).tdiv 2) % 4294967296).toNat
  if m.sizeX ≤ x ∨ m.sizeY ≤ y then INVALID_TILE_INDEX else TileXY m x y

/-- DiagonalTileIteratorController::Advance (tilearea.cpp lines 291-338):
repeat `stepOnce` while the computed tile index is invalid and b_cur has not
reached b_max, then report INVALID_TILE_INDEX if b_cur has reached b_max and
the computed tile index otherwise.  The result pairs the final controller
state with the written tile index; `none` means the explicit fuel was
exhausted before the loop exited. -/
def DiagonalTileIteratorController.advance (m : MapDims) :
    Nat → DiagonalTileIteratorController → Option (DiagonalTileIteratorController × Nat)
  | 0, _ => none
  | fuel + 1, s =>
    let s2 := s.stepOnce
    let idx := s2.tileAt m
    if IsValidTileIndex m idx then
      some (s2, if s2.b_cur = s2.b_max then INVALID_TILE_INDEX else idx)
    else
      if s2.b_cur = s2.b_max then some (s2, INVALID_TILE_INDEX)
      else DiagonalTileIteratorController.advance m fuel s2

/-- Repeated Advance calls: `run m fuel n s` is the outcome of the
(n + 1)-th Advance starting from controller state `s`, each call granted
`fuel` loop iterations.  Once an Advance reports the INVALID_TILE_INDEX
sentinel the caller stops, so the sentinel outcome is simply propagated. -/
def DiagonalTileIteratorController.run (m : MapDims) (fuel : Nat) :
    Nat → DiagonalTileIteratorController → Option (DiagonalTileIteratorController × Nat)
  | 0, s => DiagonalTileIteratorController.advance m fuel s
  | n + 1, s =>
    match DiagonalTileIteratorController.advance m fuel s with
    | none => none
    | some (s2, idx) =>
      if idx = INVALID_TILE_INDEX then some (s2, INVALID_TILE_INDEX)
      else DiagonalTileIteratorController.run m fuel n s2

/-! ### Transformation tile iterator controller (tilearea.cpp lines 363-379) -/

/-- Modelled from the spec: the four orthogonal compass directions a
directional offset can be taken along (direction_type.h). -/
inductive DiagDir where
  | NE
  | SE
  | SW
  | NW
deriving DecidableEq, Repr

/-- Modelled from the spec: per-direction tile coordinate offset
(TileIndexDiffCByDiagDir of map_func.h): NE is one tile towards smaller x,
SW one tile towards larger x, SE one tile towards larger y, NW one tile
towards smaller y. -/
def TileIndexDiffCByDiagDir : DiagDir → Int × Int
  | DiagDir.NE => (-1, 0)
  | DiagDir.SE => (0, 1)
  | DiagDir.SW => (1, 0)
  | DiagDir.NW => (0, -1)

/-- Modelled from the spec: linear-index delta of a coordinate offset for a
specific map (ToTileIndexDiff of map_func.h): y component times the map row
stride plus the x component. -/
def ToTileIndexDiff (diffc : Int × Int) (m : MapDims) : Int :=
  diffc.2 * (m.sizeX : Int) + diffc.1

/-- Addition of a signed linear-index delta to a uint32 tile index, with the
wraparound of the C++ unsigned arithmetic made explicit.  Consecutive
compound assignments of the source collapse to one emod because addition
modulo 2^32 is a congruence. -/
def addIndexDiff (idx : Nat) (d : Int) : Nat := (((idx : Int) + d) % 4294967296).toNat

/-- Controller state of the transformation iterator: remaining column count
x, remaining row count y, width w (tilearea_type.h, modelled from the spec,
section 3).  The symmetry transform is not stored here; the external
TransformDiagDir primitive with the stored transform partially applied is
passed to `advance` as the function argument `tdd`. -/
structure TransformationTileIteratorController where
  x : Nat
  y : Nat
  w : Nat
deriving DecidableEq, Repr

/-- TransformationTileIteratorController::Advance (tilearea.cpp lines
363-379).  The counters are C++ uints, so the predecrements are modelled as
addition of 4294967295 modulo 2^32; `tdd` stands for the external call
TransformDiagDir(dir, this->transformation). -/
def TransformationTileIteratorController.advance (tdd : DiagDir → DiagDir)
    (src_map dst_map : MapDims) (c : TransformationTileIteratorController)
    (src_index dst_index : Nat) : TransformationTileIteratorController × Nat × Nat :=
  let x2 := u32 (c.x + 4294967295)
  if 0 < x2 then
    (⟨x2, c.y, c.w⟩, u32 (src_index + 1),
      addIndexDiff dst_index (ToTileIndexDiff (TileIndexDiffCByDiagDir (tdd DiagDir.SW)) dst_map))
  else
    let y2 := u32 (c.y + 4294967295)
    if 0 < y2 then
      (⟨c.w, y2, c.w⟩,
        addIndexDiff src_index (TileDiffXY 1 1 src_map - (c.w : Int)),
        addIndexDiff
          (addIndexDiff dst_index
            (-(ToTileIndexDiff (TileIndexDiffCByDiagDir (tdd DiagDir.SW)) dst_map) * ((c.w : Int) - 1)))
          (ToTileIndexDiff (TileIndexDiffCByDiagDir (tdd DiagDir.SE)) dst_map))
    else
      (⟨x2, y2, c.w⟩, INVALID_TILE_INDEX, INVALID_TILE_INDEX)

/-! ### Clipboard buffers (clipboard.cpp lines 70-99, clipboard_func.h)

A `Map` pointer is modelled by its signed offset, in array elements, from
the base of the static _clipboard_buffers array; pointer subtraction yields
exactly that offset, and the (size_t) cast of the source is the reduction
modulo 2^64 of the difference. -/

def NUM_CLIPBOARD_BUFFERS : Nat := 5

/-- IsClipboardBuffer (clipboard.cpp lines 70-73): the pointer difference
map - _clipboard_buffers cast to size_t is below NUM_CLIPBOARD_BUFFERS. -/
def IsClipboardBuffer (map : Int) : Bool :=
  decide ((map % 18446744073709551616).toNat < NUM_CLIPBOARD_BUFFERS)

/-- GetClipboardBuffer (clipboard.cpp lines 82-86): address of the index-th
array element, i.e. offset index from the array base. -/
def GetClipboardBuffer (index : Nat) : Int := (index : Int)

/-- GetClipboardBufferIndex (clipboard.cpp lines 95-99): pointer difference
buffer - _clipboard_buffers, returned as a C++ uint (reduction mod 2^32). -/
def GetClipboardBufferIndex (buffer : Int) : Nat :=
  (buffer % 4294967296).toNat

/-! ### Claims about the diagonal area constructor and containment -/

/-- Statement of the spec, claim C2: the adjustment of a raw rotated
difference, one away from zero according to its own sign, incrementing when
strictly positive and decrementing otherwise. -/
def adjustAwayFromZero (v : Int) : Int := if 0 < v then v + 1 else v - 1

/-- C2: for every pair of corner tiles, the DiagonalArea constructor keeps
the start corner as origin and stores a = (end.y + end.x) - (start.y +
start.x) and b = (end.y - end.x) - (start.y - start.x), each adjusted one
away from zero according to that extent's own sign. -/
theorem C2_diag_construct_extents (m : MapDims) (tstart tend : Nat) :
    (DiagonalTileArea.construct m tstart tend).tile = tstart ∧
    (DiagonalTileArea.construct m tstart tend).a =
      adjustAwayFromZero (((TileY m tend : Int) + (TileX m tend : Int)) -
        ((TileY m tstart : Int) + (TileX m tstart : Int))) ∧
    (DiagonalTileArea.construct m tstart tend).b =
      adjustAwayFromZero (((TileY m tend : Int) - (TileX m tend : Int)) -
        ((TileY m tstart : Int) - (TileX m tstart : Int))) := by
  refine ⟨rfl, ?_, ?_⟩ <;>
    simp only [DiagonalTileArea.construct, adjustAwayFromZero] <;>
    split_ifs <;> omega

/-- Statement of the spec, claim C3: derivation of one half-open range of
rotated coordinates from the origin coordinate and a stored extent, the
endpoints being swapped with 1 added on both sides exactly when the raw
bounds are out of order (which for a never-zero extent means a negative
extent). -/
def diagRangeFromExtent (start ext : Int) : Int × Int :=
  if start > start + ext then (start + ext + 1, start + 1) else (start, start + ext)

/-- C3: DiagonalArea::Contains holds for a tile exactly when both of its
rotated sums a = y + x and b = y - x fall in the half-open ranges derived
from the origin and the stored extents with the exclusive-end-preserving
endpoint swap. -/
theorem C3_diag_contains_characterization (m : MapDims) (ta : DiagonalTileArea) (t : Nat) :
    DiagonalTileArea.contains m ta t = true ↔
      (((diagRangeFromExtent ((TileY m ta.tile : Int) + (TileX m ta.tile : Int)) ta.a).1 ≤
          (TileY m t : Int) + (TileX m t : Int) ∧
        (TileY m t : Int) + (TileX m t : Int) <
          (diagRangeFromExtent ((TileY m ta.tile : Int) + (TileX m ta.tile : Int)) ta.a).2) ∧
       ((diagRangeFromExtent ((TileY m ta.tile : Int) - (TileX m ta.tile : Int)) ta.b).1 ≤
          (TileY m t : Int) - (TileX m t : Int) ∧
        (TileY m t : Int) - (TileX m t : Int) <
          (diagRangeFromExtent ((TileY m ta.tile : Int) - (TileX m ta.tile : Int)) ta.b).2)) := by
  simp only [DiagonalTileArea.contains, diagRangeFromExtent, decide_eq_true_eq]
  split_ifs <;> constructor <;> intro h <;> omega

/-- C9: the DiagonalArea constructed from two corners contains both of its
corners, and the stored extents are never zero after construction (a raw
rotated difference of 0 is adjusted to -1), so even a one-tile area contains
its tile. -/
theorem C9_diag_corners_contained (m : MapDims) (tstart tend : Nat) :
    (DiagonalTileArea.construct m tstart tend).contains m tstart = true ∧
    (DiagonalTileArea.construct m tstart tend).contains m tend = true ∧
    (DiagonalTileArea.construct m tstart tend).a ≠ 0 ∧
    (DiagonalTileArea.construct m tstart tend).b ≠ 0 := by
  refine ⟨?_, ?_, ?_, ?_⟩ <;>
    simp only [DiagonalTileArea.construct, DiagonalTileArea.contains, decide_eq_true_eq] <;>
    split_ifs <;> omega

/-! ### Decoding lemmas for composed tile indices -/

lemma TileX_TileXY (m : MapDims) (x y : Nat) (hx : x < m.sizeX) :
    TileX m (TileXY m x y) = x := by
  simp only [TileX, TileXY]
  rw [Nat.mul_comm, Nat.mul_add_mod, Nat.mod_eq_of_lt hx]

lemma TileY_TileXY (m : MapDims) (x y : Nat) (hx : x < m.sizeX) :
    TileY m (TileXY m x y) = y := by
  have h0 : 0 < m.sizeX := Nat.lt_of_le_of_lt (Nat.zero_le x) hx
  simp only [TileY, TileXY]
  rw [Nat.mul_comm, Nat.mul_add_div h0, Nat.div_eq_of_lt hx, Nat.add_zero]

lemma sizeX_pos_of_valid {m : MapDims} {t : Nat} (h : t < MapSize m) : 0 < m.sizeX := by
  rcases Nat.eq_zero_or_pos m.sizeX with h0 | h0
  · exfalso
    rw [MapSize, h0, Nat.zero_mul] at h
    exact Nat.not_lt_zero t h
  · exact h0

/-! ### Claims about the orthogonal area -/

/-- C5: the OrthogonalArea constructed from two valid corners on one map
contains both corners, has width and height one more than the absolute
coordinate differences, stores the minimum-x, minimum-y corner as origin,
and is independent of the corner order. -/
theorem C5_orth_construct (m : MapDims) (s e : Nat)
    (hs : s < MapSize m) (he : e < MapSize m) :
    (OrthogonalTileArea.construct m s e).containsTile m s = true ∧
    (OrthogonalTileArea.construct m s e).containsTile m e = true ∧
    (OrthogonalTileArea.construct m s e).w = ((TileX m s : Int) - (TileX m e : Int)).natAbs + 1 ∧
    (OrthogonalTileArea.construct m s e).h = ((TileY m s : Int) - (TileY m e : Int)).natAbs + 1 ∧
    TileX m (OrthogonalTileArea.construct m s e).tile = min (TileX m s) (TileX m e) ∧
    TileY m (OrthogonalTileArea.construct m s e).tile = min (TileY m s) (TileY m e) ∧
    OrthogonalTileArea.construct m s e = OrthogonalTileArea.construct m e s := by
  have hx0 : 0 < m.sizeX := sizeX_pos_of_valid hs
  have hsx : TileX m s < m.sizeX := Nat.mod_lt s hx0
  have hex : TileX m e < m.sizeX := Nat.mod_lt e hx0
  have hminx : (if TileX m s > TileX m e then TileX m e else TileX m s) < m.sizeX := by
    split_ifs <;> omega
  have hdx : TileX m (OrthogonalTileArea.construct m s e).tile =
      (if TileX m s > TileX m e then TileX m e else TileX m s) := by
    simp only [OrthogonalTileArea.construct]
    exact TileX_TileXY m _ _ hminx
  have hdy : TileY m (OrthogonalTileArea.construct m s e).tile =
      (if TileY m s > TileY m e then TileY m e else TileY m s) := by
    simp only [OrthogonalTileArea.construct]
    exact TileY_TileXY m _ _ hminx
  refine ⟨?_, ?_, ?_, ?_, ?_, ?_, ?_⟩
  · simp only [OrthogonalTileArea.containsTile, IsInsideBS, hdx, hdy]
    rw [if_neg (by simp only [OrthogonalTileArea.construct]; omega)]
    simp only [OrthogonalTileArea.construct, Bool.and_eq_true, decide_eq_true_eq]
    split_ifs <;> omega
  · simp only [OrthogonalTileArea.containsTile, IsInsideBS, hdx, hdy]
    rw [if_neg (by simp only [OrthogonalTileArea.construct]; omega)]
    simp only [OrthogonalTileArea.construct, Bool.and_eq_true, decide_eq_true_eq]
    split_ifs <;> omega
  · simp only [OrthogonalTileArea.construct]
    split_ifs <;> omega
  · simp only [OrthogonalTileArea.construct]
    split_ifs <;> omega
  · rw [hdx]
    split_ifs <;> omega
  · rw [hdy]
    split_ifs <;> omega
  · have e1 : (if TileX m s > TileX m e then TileX m e else TileX m s) =
        (if TileX m e > TileX m s then TileX m s else TileX m e) := by
      split_ifs <;> omega
    have e2 : (if TileY m s > TileY m e then TileY m e else TileY m s) =
        (if TileY m e > TileY m s then TileY m s else TileY m e) := by
      split_ifs <;> omega
    have e3 : (if TileX m s > TileX m e then TileX m s else TileX m e) =
        (if TileX m e > TileX m s then TileX m e else TileX m s) := by
      split_ifs <;> omega
    have e4 : (if TileY m s > TileY m e then TileY m s else TileY m e) =
        (if TileY m e > TileY m s then TileY m e else TileY m s) := by
      split_ifs <;> omega
    simp only [OrthogonalTileArea.construct, e1, e2, e3, e4]

/-- Closed witness instantiating C5_orth_construct on the concrete scenario
of the spec: corners (2,3) and (5,3) on an 8 by 8 map. -/
theorem C5_orth_construct_witness :
    (OrthogonalTileArea.construct ⟨8, 8⟩ (TileXY ⟨8, 8⟩ 2 3) (TileXY ⟨8, 8⟩ 5 3)).containsTile
        ⟨8, 8⟩ (TileXY ⟨8, 8⟩ 2 3) = true ∧
    OrthogonalTileArea.construct ⟨8, 8⟩ (TileXY ⟨8, 8⟩ 2 3) (TileXY ⟨8, 8⟩ 5 3) =
      OrthogonalTileArea.construct ⟨8, 8⟩ (TileXY ⟨8, 8⟩ 5 3) (TileXY ⟨8, 8⟩ 2 3) :=
  ⟨(C5_orth_construct ⟨8, 8⟩ (TileXY ⟨8, 8⟩ 2 3) (TileXY ⟨8, 8⟩ 5 3) (by decide) (by decide)).1,
    (C5_orth_construct ⟨8, 8⟩ (TileXY ⟨8, 8⟩ 2 3) (TileXY ⟨8, 8⟩ 5 3) (by decide) (by decide)).2.2.2.2.2.2⟩

/-- C7: Intersects is symmetric for all areas on one map; under the
nonemptiness the source asserts (widths and heights nonzero) containment of
an area implies intersection with it; and an empty area (width 0)
intersects nothing, contains nothing and is contained by nothing. -/
theorem C7_orth_intersects_contains_algebra (m : MapDims) (A B : OrthogonalTileArea) :
    OrthogonalTileArea.intersects m A B = OrthogonalTileArea.intersects m B A ∧
    (A.h ≠ 0 → B.h ≠ 0 → OrthogonalTileArea.containsArea m A B = true →
      OrthogonalTileArea.intersects m A B = true) ∧
    (A.w = 0 ∨ B.w = 0 →
      OrthogonalTileArea.intersects m A B = false ∧
      OrthogonalTileArea.containsArea m A B = false ∧
      OrthogonalTileArea.containsArea m B A = false) := by
  refine ⟨?_, ?_, ?_⟩
  · by_cases hA : A.w = 0 <;> by_cases hB : B.w = 0 <;>
      simp only [OrthogonalTileArea.intersects, hA, hB] <;>
      simp only [if_pos, if_neg, or_true, true_or, or_self, not_true, not_false_iff,
        or_false, false_or]
    · rw [decide_eq_decide]
      constructor <;> intro h <;> omega
  · intro hAh hBh hc
    by_cases hw : B.w = 0 ∨ A.w = 0
    · rw [OrthogonalTileArea.containsArea, if_pos hw] at hc
      exact absurd hc (by decide)
    · rw [OrthogonalTileArea.containsArea, if_neg hw, decide_eq_true_eq] at hc
      rw [OrthogonalTileArea.intersects, if_neg hw, decide_eq_true_eq]
      omega
  · intro h
    refine ⟨?_, ?_, ?_⟩
    · rw [OrthogonalTileArea.intersects, if_pos (by tauto)]
    · rw [OrthogonalTileArea.containsArea, if_pos (by tauto)]
    · rw [OrthogonalTileArea.containsArea, if_pos (by tauto)]

/-- Closed witness instantiating C7_orth_intersects_contains_algebra: a 2 by
2 area at (1,1) contains and therefore intersects the 1 by 1 area at (2,2)
on an 8 by 8 map. -/
theorem C7_orth_intersects_contains_algebra_witness :
    OrthogonalTileArea.intersects ⟨8, 8⟩ ⟨TileXY ⟨8, 8⟩ 1 1, 2, 2⟩ ⟨TileXY ⟨8, 8⟩ 2 2, 1, 1⟩ = true :=
  (C7_orth_intersects_contains_algebra ⟨8, 8⟩ ⟨TileXY ⟨8, 8⟩ 1 1, 2, 2⟩
    ⟨TileXY ⟨8, 8⟩ 2 2, 1, 1⟩).2.1 (by decide) (by decide) (by decide)

/-- C4 counterexample: on a 64 by 64 map the area with origin tile (0,0),
width 0 and height 0 has a valid origin tile index, so Add((4,4)) does not
collapse it to a 1 by 1 area at (4,4); the uint32 corner arithmetic wraps
and the result keeps origin (0,0) with width 0 and height 0. -/
theorem C4_add_empty_counterexample :
    OrthogonalTileArea.add ⟨64, 64⟩ ⟨0, 0, 0⟩ (TileXY ⟨64, 64⟩ 4 4) ≠
      ⟨TileXY ⟨64, 64⟩ 4 4, 1, 1⟩ := by decide

/-- C4 amended: Add collapses the area to a 1 by 1 area at the added tile
exactly when the stored origin tile index is invalid (the code tests
IsValidTileIndex on the origin, not width 0); starting from the area with
origin INVALID_TILE_INDEX, width 0, height 0, Add((4,4)) yields origin
(4,4) with width 1 and height 1, and a subsequent Add((2,6)) yields origin
(2,4) with width 3 and height 3; starting instead from the 0 by 0 area at
the valid origin (0,0), Add((4,4)) leaves origin (0,0) with width 0 and
height 0. -/
theorem C4_add_empty_amended :
    (∀ (m : MapDims) (ta : OrthogonalTileArea) (t : Nat),
      IsValidTileIndex m ta.tile = false → OrthogonalTileArea.add m ta t = ⟨t, 1, 1⟩) ∧
    OrthogonalTileArea.add ⟨64, 64⟩ ⟨INVALID_TILE_INDEX, 0, 0⟩ (TileXY ⟨64, 64⟩ 4 4) =
      ⟨TileXY ⟨64, 64⟩ 4 4, 1, 1⟩ ∧
    OrthogonalTileArea.add ⟨64, 64⟩
        (OrthogonalTileArea.add ⟨64, 64⟩ ⟨INVALID_TILE_INDEX, 0, 0⟩ (TileXY ⟨64, 64⟩ 4 4))
        (TileXY ⟨64, 64⟩ 2 6) =
      ⟨TileXY ⟨64, 64⟩ 2 4, 3, 3⟩ ∧
    OrthogonalTileArea.add ⟨64, 64⟩ ⟨0, 0, 0⟩ (TileXY ⟨64, 64⟩ 4 4) = ⟨0, 0, 0⟩ := by
  refine ⟨?_, by decide, by decide, by decide⟩
  intro m ta t h
  simp only [OrthogonalTileArea.add, h]
  simp

/-- Closed witness instantiating the universally quantified part of
C4_add_empty_amended at the invalid origin sentinel on an 8 by 8 map. -/
theorem C4_add_empty_amended_witness :
    OrthogonalTileArea.add ⟨8, 8⟩ ⟨INVALID_TILE_INDEX, 0, 0⟩ 10 = ⟨10, 1, 1⟩ :=
  C4_add_empty_amended.1 ⟨8, 8⟩ ⟨INVALID_TILE_INDEX, 0, 0⟩ 10 (by decide)

/-! ### Claim about clipboard buffer indexing -/

/-- C10: for every index below NUM_CLIPBOARD_BUFFERS, the buffer at that
index is a clipboard buffer and maps back to the same index; conversely
every pointer (with an offset representable as a 64-bit pointer difference)
recognized as a clipboard buffer is the buffer at its own index. -/
theorem C10_clipboard_buffer_roundtrip :
    (∀ i : Nat, i < NUM_CLIPBOARD_BUFFERS →
      IsClipboardBuffer (GetClipboardBuffer i) = true ∧
      GetClipboardBufferIndex (GetClipboardBuffer i) = i) ∧
    (∀ p : Int, -(2 ^ 63) ≤ p → p < 2 ^ 63 → IsClipboardBuffer p = true →
      GetClipboardBuffer (GetClipboardBufferIndex p) = p) := by
  constructor
  · intro i hi
    rw [NUM_CLIPBOARD_BUFFERS] at hi
    constructor
    · simp only [IsClipboardBuffer, GetClipboardBuffer, NUM_CLIPBOARD_BUFFERS,
        decide_eq_true_eq]
      omega
    · simp only [GetClipboardBufferIndex, GetClipboardBuffer]
      omega
  · intro p h1 h2 h3
    simp only [IsClipboardBuffer, NUM_CLIPBOARD_BUFFERS, decide_eq_true_eq] at h3
    simp only [GetClipboardBuffer, GetClipboardBufferIndex]
    omega

/-- Closed witness instantiating C10_clipboard_buffer_roundtrip at index 2
and at pointer offset 3. -/
theorem C10_clipboard_buffer_roundtrip_witness :
    IsClipboardBuffer (GetClipboardBuffer 2) = true ∧
    GetClipboardBufferIndex (GetClipboardBuffer 2) = 2 ∧
    GetClipboardBuffer (GetClipboardBufferIndex 3) = 3 :=
  ⟨(C10_clipboard_buffer_roundtrip.1 2 (by decide)).1,
    (C10_clipboard_buffer_roundtrip.1 2 (by decide)).2,
    C10_clipboard_buffer_roundtrip.2 3 (by decide) (by decide) (by decide)⟩

/-! ### Claim about the transformation iterator -/

lemma addIndexDiff_addIndexDiff (i : Nat) (d1 d2 : Int) :
    addIndexDiff (addIndexDiff i d1) d2 = addIndexDiff i (d1 + d2) := by
  simp only [addIndexDiff]
  omega

/-- Statement of the spec, claim C6: per step, with columns remaining the
source index advances by one (row-major) and the destination index by the
linear delta of DIAGDIR_SW passed through the transform; when a row
completes the column counter resets to w, the source jumps to the start of
the next row and the destination moves by one transformed-SE delta minus
(w - 1) transformed-SW deltas; when rows are exhausted both indices become
INVALID_TILE_INDEX in the same step. -/
def TransformationTileIteratorController.advanceSpec (tdd : DiagDir → DiagDir)
    (src_map dst_map : MapDims) (c : TransformationTileIteratorController)
    (src_index dst_index : Nat) : TransformationTileIteratorController × Nat × Nat :=
  if 1 < c.x then
    (⟨c.x - 1, c.y, c.w⟩, src_index + 1,
      addIndexDiff dst_index (ToTileIndexDiff (TileIndexDiffCByDiagDir (tdd DiagDir.SW)) dst_map))
  else if 1 < c.y then
    (⟨c.w, c.y - 1, c.w⟩,
      addIndexDiff src_index (TileDiffXY 1 1 src_map - (c.w : Int)),
      addIndexDiff dst_index
        (ToTileIndexDiff (TileIndexDiffCByDiagDir (tdd DiagDir.SE)) dst_map -
          ToTileIndexDiff (TileIndexDiffCByDiagDir (tdd DiagDir.SW)) dst_map * ((c.w : Int) - 1)))
  else
    (⟨c.x - 1, c.y - 1, c.w⟩, INVALID_TILE_INDEX, INVALID_TILE_INDEX)

/-- C6: for every controller state with at least one remaining column and
row (the states Advance is ever called on) and counters in uint range, one
Advance step behaves exactly as described by `advanceSpec`, for every
external direction transform and every pair of maps. -/
theorem C6_transformation_advance (tdd : DiagDir → DiagDir) (src_map dst_map : MapDims)
    (c : TransformationTileIteratorController) (src_index dst_index : Nat)
    (hx1 : 1 ≤ c.x) (hx2 : c.x < 4294967296)
    (hy1 : 1 ≤ c.y) (hy2 : c.y < 4294967296)
    (hsrc : src_index + 1 < 4294967296) :
    TransformationTileIteratorController.advance tdd src_map dst_map c src_index dst_index =
      TransformationTileIteratorController.advanceSpec tdd src_map dst_map c src_index dst_index := by
  have hx3 : u32 (c.x + 4294967295) = c.x - 1 := by
    simp only [u32]
    omega
  have hy3 : u32 (c.y + 4294967295) = c.y - 1 := by
    simp only [u32]
    omega
  have hsrc2 : u32 (src_index + 1) = src_index + 1 := by
    simp only [u32]
    omega
  simp only [TransformationTileIteratorController.advance,
    TransformationTileIteratorController.advanceSpec, hx3, hy3, hsrc2,
    addIndexDiff_addIndexDiff]
  by_cases h1 : 1 < c.x
  · rw [if_pos (show 0 < c.x - 1 by omega), if_pos h1]
  · rw [if_neg (show ¬ 0 < c.x - 1 by omega), if_neg h1]
    by_cases h2 : 1 < c.y
    · rw [if_pos (show 0 < c.y - 1 by omega), if_pos h2]
      have harr :
          -(ToTileIndexDiff (TileIndexDiffCByDiagDir (tdd DiagDir.SW)) dst_map) * ((c.w : Int) - 1) +
            ToTileIndexDiff (TileIndexDiffCByDiagDir (tdd DiagDir.SE)) dst_map =
          ToTileIndexDiff (TileIndexDiffCByDiagDir (tdd DiagDir.SE)) dst_map -
            ToTileIndexDiff (TileIndexDiffCByDiagDir (tdd DiagDir.SW)) dst_map * ((c.w : Int) - 1) := by
        ring
      rw [harr]
    · rw [if_neg (show ¬ 0 < c.y - 1 by omega), if_neg h2]

/-- Closed witness instantiating C6_transformation_advance at the end of a
row (x = 1, y = 2, w = 3) on two 8 by 8 maps with the identity direction
transform. -/
theorem C6_transformation_advance_witness :
    TransformationTileIteratorController.advance (fun d => d) ⟨8, 8⟩ ⟨8, 8⟩ ⟨1, 2, 3⟩ 11 20 =
      TransformationTileIteratorController.advanceSpec (fun d => d) ⟨8, 8⟩ ⟨8, 8⟩ ⟨1, 2, 3⟩ 11 20 :=
  C6_transformation_advance (fun d => d) ⟨8, 8⟩ ⟨8, 8⟩ ⟨1, 2, 3⟩ 11 20
    (by decide) (by decide) (by decide) (by decide) (by decide)

/-! ### Invariant and termination measure of the diagonal iterator -/

/-- Inductive invariant of the diagonal controller: extents are nonzero (as
construction guarantees), the rotated cursors stay inside the half-open
rotated box on the side their extent points to, and the cursor parities
agree except possibly in the finished degenerate-strip state. -/
def DiagonalTileIteratorController.Inv (s : DiagonalTileIteratorController) : Prop :=
  s.a_max ≠ 0 ∧ s.b_max ≠ 0 ∧
  (0 < s.a_max → 0 ≤ s.a_cur ∧ s.a_cur < s.a_max) ∧
  (s.a_max < 0 → s.a_max < s.a_cur ∧ s.a_cur ≤ 0) ∧
  (0 < s.b_max → 0 ≤ s.b_cur ∧ s.b_cur ≤ s.b_max) ∧
  (s.b_max < 0 → s.b_max ≤ s.b_cur ∧ s.b_cur ≤ 0) ∧
  ((s.a_max = 1 ∨ s.a_max = -1) → s.b_cur = s.b_max ∨ (s.a_cur + s.b_cur) % 2 = 0) ∧
  (¬ (s.a_max = 1 ∨ s.a_max = -1) → (s.a_cur + s.b_cur) % 2 = 0)

/-- Termination measure of the diagonal iteration: remaining rotated rows
weighted by one more than the rotated row length, plus the remaining
distance in the current row.  Every `stepOnce` from a not-yet-finished
invariant state strictly decreases it. -/
def DiagonalTileIteratorController.variant (s : DiagonalTileIteratorController) : Nat :=
  (s.b_max - s.b_cur).natAbs * (s.a_max.natAbs + 2) + (s.a_max - s.a_cur).natAbs

lemma stepOnce_spec (s : DiagonalTileIteratorController) (h : s.Inv) (hne : s.b_cur ≠ s.b_max) :
    s.stepOnce.Inv ∧ s.stepOnce.variant < s.variant ∧ s.stepOnce.a_max = s.a_max ∧
      s.stepOnce.b_max = s.b_max ∧ s.stepOnce.base_x = s.base_x ∧
      s.stepOnce.base_y = s.base_y := by
  obtain ⟨ha0, hb0, hap, han, hbp, hbn, hp1, hp2⟩ := h
  by_cases hsp : s.a_max = 1 ∨ s.a_max = -1
  · have hac : s.a_cur = 0 := by omega
    have hbev : s.b_cur % 2 = 0 := by
      rcases hp1 hsp with h | h
      · exact absurd h hne
      · omega
    have hK : s.a_max.natAbs + 2 = 3 := by omega
    simp only [DiagonalTileIteratorController.stepOnce, if_pos hsp]
    refine ⟨?_, ?_, by trivial, by trivial, by trivial, by trivial⟩
    · simp only [DiagonalTileIteratorController.Inv]
      split_ifs <;> omega
    · simp only [DiagonalTileIteratorController.variant, hK]
      split_ifs <;> omega
  · have hev : (s.a_cur + s.b_cur) % 2 = 0 := hp2 hsp
    by_cases hpos : 0 < s.a_max
    · have ha2 : 2 ≤ s.a_max := by omega
      simp only [DiagonalTileIteratorController.stepOnce, if_neg hsp, if_pos hpos]
      by_cases hnl : s.a_max ≤ s.a_cur + 2
      · rw [if_pos (decide_eq_true hnl)]
        refine ⟨?_, ?_, by trivial, by trivial, by trivial, by trivial⟩
        · simp only [DiagonalTileIteratorController.Inv]
          split_ifs <;> omega
        · simp only [DiagonalTileIteratorController.variant]
          by_cases hbdir : 0 < s.b_max
          · have hdb : (s.b_max - s.b_cur).natAbs = (s.b_max - (s.b_cur + 1)).natAbs + 1 := by
              omega
            rw [hdb, add_one_mul]
            split_ifs <;> omega
          · have hdb : (s.b_max - s.b_cur).natAbs = (s.b_max - (s.b_cur - 1)).natAbs + 1 := by
              omega
            rw [hdb, add_one_mul]
            split_ifs <;> omega
      · rw [if_neg (by simpa using hnl)]
        refine ⟨?_, ?_, by trivial, by trivial, by trivial, by trivial⟩
        · simp only [DiagonalTileIteratorController.Inv]
          omega
        · simp only [DiagonalTileIteratorController.variant]
          omega
    · have ha2 : s.a_max ≤ -2 := by omega
      simp only [DiagonalTileIteratorController.stepOnce, if_neg hsp, if_neg hpos]
      by_cases hnl : s.a_cur - 2 ≤ s.a_max
      · rw [if_pos (decide_eq_true hnl)]
        refine ⟨?_, ?_, by trivial, by trivial, by trivial, by trivial⟩
        · simp only [DiagonalTileIteratorController.Inv]
          split_ifs <;> omega
        · simp only [DiagonalTileIteratorController.variant]
          by_cases hbdir : 0 < s.b_max
          · have hdb : (s.b_max - s.b_cur).natAbs = (s.b_max - (s.b_cur + 1)).natAbs + 1 := by
              omega
            rw [hdb, add_one_mul]
            split_ifs <;> omega
          · have hdb : (s.b_max - s.b_cur).natAbs = (s.b_max - (s.b_cur - 1)).natAbs + 1 := by
              omega
            rw [hdb, add_one_mul]
            split_ifs <;> omega
      · rw [if_neg (by simpa using hnl)]
        refine ⟨?_, ?_, by trivial, by trivial, by trivial, by trivial⟩
        · simp only [DiagonalTileIteratorController.Inv]
          omega
        · simp only [DiagonalTileIteratorController.variant]
          omega

/-! ### Unfolding equations of advance and run -/

lemma advance_zero (m : MapDims) (s : DiagonalTileIteratorController) :
    DiagonalTileIteratorController.advance m 0 s = none := rfl

lemma advance_succ (m : MapDims) (fuel : Nat) (s : DiagonalTileIteratorController) :
    DiagonalTileIteratorController.advance m (fuel + 1) s =
      (if IsValidTileIndex m (s.stepOnce.tileAt m) then
        some (s.stepOnce,
          if s.stepOnce.b_cur = s.stepOnce.b_max then INVALID_TILE_INDEX else s.stepOnce.tileAt m)
      else if s.stepOnce.b_cur = s.stepOnce.b_max then some (s.stepOnce, INVALID_TILE_INDEX)
      else DiagonalTileIteratorController.advance m fuel s.stepOnce) := rfl

lemma run_zero (m : MapDims) (F : Nat) (s : DiagonalTileIteratorController) :
    DiagonalTileIteratorController.run m F 0 s = DiagonalTileIteratorController.advance m F s :=
  rfl

lemma run_succ (m : MapDims) (F n : Nat) (s : DiagonalTileIteratorController) :
    DiagonalTileIteratorController.run m F (n + 1) s =
      (match DiagonalTileIteratorController.advance m F s with
        | none => none
        | some (s2, idx) =>
          if idx = INVALID_TILE_INDEX then some (s2, INVALID_TILE_INDEX)
          else DiagonalTileIteratorController.run m F n s2) := rfl

/-! ### Inversion and totality of a single Advance call -/

/-- Whenever an Advance call completes (with any fuel) from an invariant
not-yet-finished state, the new state is again invariant with the same
extents and base and a strictly smaller measure, and a produced non-sentinel
index is the valid tile computed from the new state with iteration not yet
finished. -/
lemma advance_some_spec (m : MapDims) (fuel : Nat) :
    ∀ (s s2 : DiagonalTileIteratorController) (idx : Nat), s.Inv → s.b_cur ≠ s.b_max →
      DiagonalTileIteratorController.advance m fuel s = some (s2, idx) →
      s2.Inv ∧ s2.a_max = s.a_max ∧ s2.b_max = s.b_max ∧ s2.base_x = s.base_x ∧
        s2.base_y = s.base_y ∧ s2.variant < s.variant ∧
        (idx ≠ INVALID_TILE_INDEX →
          idx = s2.tileAt m ∧ IsValidTileIndex m idx = true ∧ s2.b_cur ≠ s2.b_max) := by
  induction fuel with
  | zero =>
    intro s s2 idx _ _ heq
    rw [advance_zero] at heq
    cases heq
  | succ fuel ih =>
    intro s s2 idx hinv hne heq
    obtain ⟨hi, hv, ha, hb, hx, hy⟩ := stepOnce_spec s hinv hne
    rw [advance_succ] at heq
    by_cases hval : IsValidTileIndex m (s.stepOnce.tileAt m)
    · rw [if_pos hval] at heq
      simp only [Option.some.injEq, Prod.mk.injEq] at heq
      obtain ⟨hs2, hidx⟩ := heq
      subst hs2
      by_cases hbe : s.stepOnce.b_cur = s.stepOnce.b_max
      · rw [if_pos hbe] at hidx
        subst hidx
        exact ⟨hi, ha, hb, hx, hy, hv, fun hc => absurd rfl hc⟩
      · rw [if_neg hbe] at hidx
        subst hidx
        exact ⟨hi, ha, hb, hx, hy, hv, fun _ => ⟨rfl, hval, hbe⟩⟩
    · rw [if_neg hval] at heq
      by_cases hbe : s.stepOnce.b_cur = s.stepOnce.b_max
      · rw [if_pos hbe] at heq
        simp only [Option.some.injEq, Prod.mk.injEq] at heq
        obtain ⟨hs2, hidx⟩ := heq
        subst hs2
        subst hidx
        exact ⟨hi, ha, hb, hx, hy, hv, fun hc => absurd rfl hc⟩
      · rw [if_neg hbe] at heq
        have hrec := ih s.stepOnce s2 idx hi hbe heq
        exact ⟨hrec.1, hrec.2.1.trans ha, hrec.2.2.1.trans hb, hrec.2.2.2.1.trans hx,
          hrec.2.2.2.2.1.trans hy, lt_trans hrec.2.2.2.2.2.1 hv, hrec.2.2.2.2.2.2⟩

/-- With fuel at least the measure of the state, an Advance call from an
invariant not-yet-finished state always completes: the border-skip loop of
the source exits after finitely many iterations. -/
lemma advance_total (m : MapDims) (fuel : Nat) :
    ∀ s : DiagonalTileIteratorController, s.Inv → s.b_cur ≠ s.b_max → s.variant ≤ fuel →
      ∃ r, DiagonalTileIteratorController.advance m fuel s = some r := by
  induction fuel with
  | zero =>
    intro s _ hne hvar
    exfalso
    have hdb : 0 < (s.b_max - s.b_cur).natAbs := by omega
    have hp := Nat.mul_pos hdb (show 0 < s.a_max.natAbs + 2 by omega)
    have hv : 0 < s.variant := by
      simp only [DiagonalTileIteratorController.variant]
      omega
    omega
  | succ fuel ih =>
    intro s hinv hne hvar
    obtain ⟨hi, hv, ha, hb, hx, hy⟩ := stepOnce_spec s hinv hne
    rw [advance_succ]
    by_cases hval : IsValidTileIndex m (s.stepOnce.tileAt m)
    · exact ⟨_, by rw [if_pos hval]⟩
    · rw [if_neg hval]
      by_cases hbe : s.stepOnce.b_cur = s.stepOnce.b_max
      · exact ⟨_, by rw [if_pos hbe]⟩
      · rw [if_neg hbe]
        exact ih s.stepOnce hi hbe (by omega)

/-! ### Inversion and totality of repeated Advance calls -/

/-- Inversion along a whole chain of Advance calls: whatever fuel was used,
a completed (n + 1)-th Advance starting from an invariant not-yet-finished
state yields an invariant state with the same extents and base, and a
produced non-sentinel index is the valid tile computed from that state. -/
lemma run_some_spec (m : MapDims) (F : Nat) (n : Nat) :
    ∀ (s s2 : DiagonalTileIteratorController) (idx : Nat), s.Inv → s.b_cur ≠ s.b_max →
      DiagonalTileIteratorController.run m F n s = some (s2, idx) →
      s2.Inv ∧ s2.a_max = s.a_max ∧ s2.b_max = s.b_max ∧ s2.base_x = s.base_x ∧
        s2.base_y = s.base_y ∧
        (idx ≠ INVALID_TILE_INDEX →
          idx = s2.tileAt m ∧ IsValidTileIndex m idx = true ∧ s2.b_cur ≠ s2.b_max) := by
  induction n with
  | zero =>
    intro s s2 idx hinv hne heq
    rw [run_zero] at heq
    have h := advance_some_spec m F s s2 idx hinv hne heq
    exact ⟨h.1, h.2.1, h.2.2.1, h.2.2.2.1, h.2.2.2.2.1, h.2.2.2.2.2.2⟩
  | succ n ih =>
    intro s s2 idx hinv hne heq
    rw [run_succ] at heq
    cases hadv : DiagonalTileIteratorController.advance m F s with
    | none =>
      rw [hadv] at heq
      cases heq
    | some r =>
      obtain ⟨s2', idx'⟩ := r
      rw [hadv] at heq
      dsimp only at heq
      have h := advance_some_spec m F s s2' idx' hinv hne hadv
      by_cases hidx' : idx' = INVALID_TILE_INDEX
      · rw [if_pos hidx'] at heq
        simp only [Option.some.injEq, Prod.mk.injEq] at heq
        obtain ⟨hs2, hidx⟩ := heq
        subst hs2
        subst hidx
        exact ⟨h.1, h.2.1, h.2.2.1, h.2.2.2.1, h.2.2.2.2.1, fun hc => absurd rfl hc⟩
      · rw [if_neg hidx'] at heq
        obtain ⟨hieq, hvalid, hbne⟩ := h.2.2.2.2.2.2 hidx'
        have hrec := ih s2' s2 idx h.1 hbne heq
        exact ⟨hrec.1, hrec.2.1.trans h.2.1, hrec.2.2.1.trans h.2.2.1,
          hrec.2.2.2.1.trans h.2.2.2.1, hrec.2.2.2.2.1.trans h.2.2.2.2.1, hrec.2.2.2.2.2⟩

/-- Totality of the chain: with fuel at least the measure of the starting
state, every Advance in the chain completes, and once at least measure-many
Advance calls have been made the outcome is the done sentinel. -/
lemma run_total (m : MapDims) (F : Nat) (n : Nat) :
    ∀ s : DiagonalTileIteratorController, s.Inv → s.b_cur ≠ s.b_max → s.variant ≤ F →
      ∃ s2 idx, DiagonalTileIteratorController.run m F n s = some (s2, idx) ∧
        (s.variant ≤ n → idx = INVALID_TILE_INDEX) := by
  induction n with
  | zero =>
    intro s hinv hne hvar
    obtain ⟨⟨s2, idx⟩, heq⟩ := advance_total m F s hinv hne hvar
    refine ⟨s2, idx, by rw [run_zero]; exact heq, ?_⟩
    intro h0
    exfalso
    have hdb : 0 < (s.b_max - s.b_cur).natAbs := by omega
    have hp := Nat.mul_pos hdb (show 0 < s.a_max.natAbs + 2 by omega)
    have hv : 0 < s.variant := by
      simp only [DiagonalTileIteratorController.variant]
      omega
    omega
  | succ n ih =>
    intro s hinv hne hvar
    obtain ⟨⟨s2', idx'⟩, heq⟩ := advance_total m F s hinv hne hvar
    have h := advance_some_spec m F s s2' idx' hinv hne heq
    by_cases hidx' : idx' = INVALID_TILE_INDEX
    · refine ⟨s2', INVALID_TILE_INDEX, ?_, fun _ => rfl⟩
      rw [run_succ, heq]
      dsimp only
      rw [if_pos hidx']
    · obtain ⟨hieq, hvalid, hbne⟩ := h.2.2.2.2.2.2 hidx'
      have hvar2 : s2'.variant ≤ F := by
        have := h.2.2.2.2.2.1
        omega
      obtain ⟨s3, idx3, heq3, himp3⟩ := ih s2' h.1 hbne hvar2
      refine ⟨s3, idx3, ?_, ?_⟩
      · rw [run_succ, heq]
        dsimp only
        rw [if_neg hidx']
        exact heq3
      · intro hsn
        refine himp3 ?_
        have := h.2.2.2.2.2.1
        omega

/-! ### Initialization facts -/

lemma init_inv (m : MapDims) (ts te : Nat) :
    (DiagonalTileIteratorController.init m (DiagonalTileArea.construct m ts te)).Inv := by
  simp only [DiagonalTileIteratorController.init, DiagonalTileIteratorController.Inv,
    DiagonalTileArea.construct]
  split_ifs <;> omega

lemma init_bne (m : MapDims) (ts te : Nat) :
    (DiagonalTileIteratorController.init m (DiagonalTileArea.construct m ts te)).b_cur ≠
      (DiagonalTileIteratorController.init m (DiagonalTileArea.construct m ts te)).b_max := by
  simp only [DiagonalTileIteratorController.init, DiagonalTileArea.construct]
  split_ifs <;> omega

lemma construct_extents_bound (m : MapDims) (ts te : Nat)
    (hmx : m.sizeX ≤ 65535) (hmy : m.sizeY ≤ 65535)
    (hs : ts < MapSize m) (he : te < MapSize m) :
    (DiagonalTileArea.construct m ts te).a.natAbs ≤ 131070 ∧
    (DiagonalTileArea.construct m ts te).b.natAbs ≤ 131070 := by
  have h0 : 0 < m.sizeX := sizeX_pos_of_valid hs
  have h1 : TileX m ts < m.sizeX := Nat.mod_lt ts h0
  have h2 : TileX m te < m.sizeX := Nat.mod_lt te h0
  have h3 : TileY m ts < m.sizeY := by
    rw [TileY]
    exact Nat.div_lt_of_lt_mul (by rw [MapSize] at hs; exact hs)
  have h4 : TileY m te < m.sizeY := by
    rw [TileY]
    exact Nat.div_lt_of_lt_mul (by rw [MapSize] at he; exact he)
  constructor <;> (simp only [DiagonalTileArea.construct]; split_ifs <;> omega)

/-! ### Containment of produced tiles -/


set_option maxHeartbeats 1600000 in
/-- Pure arithmetic core of the containment of produced tiles, over scalar
variables only: a rotated cursor inside the invariant bounds, converted to
map coordinates through the uint32 computation and found on-map, lands in
both half-open rotated ranges of the containment test. -/
lemma diag_contains_arith (sizeX sizeY ox oy : Nat) (a b ac bc : Int) (X Y : Nat)
    (hmx : sizeX ≤ 65535) (hmy : sizeY ≤ 65535)
    (hox : ox < sizeX) (hoy : oy < sizeY)
    (hA : a.natAbs ≤ 131070) (hB : b.natAbs ≤ 131070)
    (hne : bc ≠ b)
    (hap : 0 < a → 0 ≤ ac ∧ ac < a)
    (han : a < 0 → a < ac ∧ ac ≤ 0)
    (hbp : 0 < b → 0 ≤ bc ∧ bc ≤ b)
    (hbn : b < 0 → b ≤ bc ∧ bc ≤ 0)
    (ha0 : a ≠ 0) (hb0 : b ≠ 0)
    (heven : (ac + bc) % 2 = 0)
    (hX : (((ox : Int) + (ac - bc) / 2) % 4294967296).toNat = X)
    (hY : (((oy : Int) + (bc + ac) / 2) % 4294967296).toNat = Y)
    (hxlt : X < sizeX) (hylt : Y < sizeY) :
    ((Y : Int) + (X : Int) ≥
        (if (oy : Int) + (ox : Int) > (oy : Int) + (ox : Int) + a then
          (oy : Int) + (ox : Int) + a + 1 else (oy : Int) + (ox : Int))) ∧
    ((Y : Int) + (X : Int) <
        (if (oy : Int) + (ox : Int) > (oy : Int) + (ox : Int) + a then
          (oy : Int) + (ox : Int) + 1 else (oy : Int) + (ox : Int) + a)) ∧
    ((Y : Int) - (X : Int) ≥
        (if (oy : Int) - (ox : Int) > (oy : Int) - (ox : Int) + b then
          (oy : Int) - (ox : Int) + b + 1 else (oy : Int) - (ox : Int))) ∧
    ((Y : Int) - (X : Int) <
        (if (oy : Int) - (ox : Int) > (oy : Int) - (ox : Int) + b then
          (oy : Int) - (ox : Int) + 1 else (oy : Int) - (ox : Int) + b)) := by
  have hac : ac.natAbs ≤ 131070 := by omega
  have hbc : bc.natAbs ≤ 131070 := by omega
  have hXv : (X : Int) = (ox : Int) + (ac - bc) / 2 := by omega
  have hYv : (Y : Int) = (oy : Int) + (bc + ac) / 2 := by omega
  clear hX hY
  split_ifs <;> omega

set_option maxHeartbeats 1000000 in
/-- Any tile index computed from an invariant not-yet-finished controller
state over a diagonal area on a 16-bit-sized map, when it is on-map, is
contained in the area. -/
lemma produced_contained (m : MapDims) (ta : DiagonalTileArea)
    (s2 : DiagonalTileIteratorController)
    (hmx : m.sizeX ≤ 65535) (hmy : m.sizeY ≤ 65535)
    (htx : TileX m ta.tile < m.sizeX) (hty : TileY m ta.tile < m.sizeY)
    (hA : ta.a.natAbs ≤ 131070) (hB : ta.b.natAbs ≤ 131070)
    (hinv : s2.Inv) (hne : s2.b_cur ≠ s2.b_max)
    (hamax : s2.a_max = ta.a) (hbmax : s2.b_max = ta.b)
    (hbx : s2.base_x = TileX m ta.tile) (hby : s2.base_y = TileY m ta.tile)
    (hvalid : IsValidTileIndex m (s2.tileAt m) = true) :
    ta.contains m (s2.tileAt m) = true := by
  obtain ⟨ha0, hb0, hap, han, hbp, hbn, hp1, hp2⟩ := hinv
  have heven : (s2.a_cur + s2.b_cur) % 2 = 0 := by
    by_cases hsp : s2.a_max = 1 ∨ s2.a_max = -1
    · rcases hp1 hsp with h | h
      · exact absurd h hne
      · exact h
    · exact hp2 hsp
  have ht1 : (s2.a_cur - s2.b_cur).tdiv 2 = (s2.a_cur - s2.b_cur) / 2 := by
    have hk : s2.a_cur - s2.b_cur = 2 * ((s2.a_cur - s2.b_cur) / 2) := by omega
    conv_lhs => rw [hk]
    rw [Int.mul_tdiv_cancel_left _ (by norm_num)]
  have ht2 : (s2.b_cur + s2.a_cur).tdiv 2 = (s2.b_cur + s2.a_cur) / 2 := by
    have hk : s2.b_cur + s2.a_cur = 2 * ((s2.b_cur + s2.a_cur) / 2) := by omega
    conv_lhs => rw [hk]
    rw [Int.mul_tdiv_cancel_left _ (by norm_num)]
  have hMS : MapSize m ≤ 4294836225 := by
    rw [MapSize]
    calc m.sizeX * m.sizeY ≤ 65535 * 65535 := Nat.mul_le_mul hmx hmy
    _ = 4294836225 := by norm_num
  by_cases hout :
      m.sizeX ≤ (((s2.base_x : Int) + (s2.a_cur - s2.b_cur).tdiv 2) % 4294967296).toNat ∨
      m.sizeY ≤ (((s2.base_y : Int) + (s2.b_cur + s2.a_cur).tdiv 2) % 4294967296).toNat
  · exfalso
    have hbad : s2.tileAt m = INVALID_TILE_INDEX := by
      simp only [DiagonalTileIteratorController.tileAt, if_pos hout]
    rw [hbad] at hvalid
    simp only [IsValidTileIndex, INVALID_TILE_INDEX, decide_eq_true_eq] at hvalid
    omega
  · have htile : s2.tileAt m =
        TileXY m (((s2.base_x : Int) + (s2.a_cur - s2.b_cur).tdiv 2) % 4294967296).toNat
          (((s2.base_y : Int) + (s2.b_cur + s2.a_cur).tdiv 2) % 4294967296).toNat := by
      simp only [DiagonalTileIteratorController.tileAt, if_neg hout]
    push_neg at hout
    obtain ⟨hxlt, hylt⟩ := hout
    rw [htile]
    simp only [DiagonalTileArea.contains]
    rw [TileX_TileXY m _ _ hxlt, TileY_TileXY m _ _ hxlt]
    simp only [decide_eq_true_eq]
    rw [ht1] at hxlt ⊢
    rw [ht2] at hylt ⊢
    generalize hX : (((s2.base_x : Int) + (s2.a_cur - s2.b_cur) / 2) % 4294967296).toNat = X
      at hxlt ⊢
    generalize hY : (((s2.base_y : Int) + (s2.b_cur + s2.a_cur) / 2) % 4294967296).toNat = Y
      at hylt ⊢
    rw [hamax] at hap han ha0
    rw [hbmax] at hbp hbn hne hb0
    rw [hbx] at hX
    rw [hby] at hY
    exact diag_contains_arith m.sizeX m.sizeY (TileX m ta.tile) (TileY m ta.tile) ta.a ta.b
      s2.a_cur s2.b_cur X Y hmx hmy htx hty hA hB hne hap han hbp hbn ha0 hb0 heven hX hY
      hxlt hylt

/-! ### Claims about the diagonal iterator -/

/-- C1: every tile index the diagonal iterator produces before the done
sentinel, over the DiagonalArea built from two valid corners of a
16-bit-sized map, satisfies DiagonalArea::Contains; no tile outside the
area is ever produced, whatever fuel each Advance call is granted and
however many Advance calls are made. -/
theorem C1_diag_iterator_tiles_contained (m : MapDims) (ts te : Nat)
    (hmx : m.sizeX ≤ 65535) (hmy : m.sizeY ≤ 65535)
    (hs : ts < MapSize m) (he : te < MapSize m)
    (F n : Nat) (s2 : DiagonalTileIteratorController) (idx : Nat)
    (hrun : DiagonalTileIteratorController.run m F n
        (DiagonalTileIteratorController.init m (DiagonalTileArea.construct m ts te)) =
      some (s2, idx))
    (hidx : idx ≠ INVALID_TILE_INDEX) :
    (DiagonalTileArea.construct m ts te).contains m idx = true := by
  obtain ⟨hinv2, hamax, hbmax, hbx, hby, himp⟩ :=
    run_some_spec m F n _ s2 idx (init_inv m ts te) (init_bne m ts te) hrun
  obtain ⟨hieq, hval, hne2⟩ := himp hidx
  obtain ⟨hA, hB⟩ := construct_extents_bound m ts te hmx hmy hs he
  have h0 : 0 < m.sizeX := sizeX_pos_of_valid hs
  have htx : TileX m (DiagonalTileArea.construct m ts te).tile < m.sizeX := Nat.mod_lt _ h0
  have hty : TileY m (DiagonalTileArea.construct m ts te).tile < m.sizeY := by
    rw [TileY]
    exact Nat.div_lt_of_lt_mul (by rw [MapSize] at hs; exact hs)
  rw [hieq]
  rw [hieq] at hval
  exact produced_contained m (DiagonalTileArea.construct m ts te) s2 hmx hmy htx hty hA hB
    hinv2 hne2 hamax hbmax hbx hby hval

/-- Closed witness instantiating C1_diag_iterator_tiles_contained: on an 8
by 8 map, the first Advance over the diagonal area with corners (0,0) and
(2,0) produces tile (1,1), index 9, which the area contains. -/
theorem C1_diag_iterator_tiles_contained_witness :
    (DiagonalTileArea.construct ⟨8, 8⟩ 0 2).contains ⟨8, 8⟩ 9 = true :=
  C1_diag_iterator_tiles_contained ⟨8, 8⟩ 0 2 (by decide) (by decide) (by decide) (by decide)
    50 0 ⟨0, 0, 2, 0, 3, -3⟩ 9 (by decide) (by decide)

/-- C8: diagonal iteration is finite: there is a fuel budget under which
every Advance call of the iteration over the DiagonalArea built from any
two corners completes (its border-skip loop exits), and a step count after
which the outcome is the INVALID_TILE_INDEX sentinel, covering in
particular the degenerate strips with a_max equal to 1 or -1. -/
theorem C8_diag_iteration_terminates (m : MapDims) (ts te : Nat) :
    ∃ F N : Nat, ∀ n : Nat, ∃ (s2 : DiagonalTileIteratorController) (idx : Nat),
      DiagonalTileIteratorController.run m F n
          (DiagonalTileIteratorController.init m (DiagonalTileArea.construct m ts te)) =
        some (s2, idx) ∧
      (N ≤ n → idx = INVALID_TILE_INDEX) := by
  refine ⟨(DiagonalTileIteratorController.init m (DiagonalTileArea.construct m ts te)).variant,
    (DiagonalTileIteratorController.init m (DiagonalTileArea.construct m ts te)).variant,
    fun n => ?_⟩
  obtain ⟨s2, idx, heq, himp⟩ :=
    run_total m _ n _ (init_inv m ts te) (init_bne m ts te) le_rfl
  exact ⟨s2, idx, heq, himp⟩
